import Mathlib

/-!
Verification of `src/mechanics/ctx.py`, a tree-dumper utility: it walks a
directory tree with `os.walk`, selects files whose `os.path.splitext`
extension (lower-cased) lies in the set `{".rs", ".toml", ".md"}`, reads
each such file as UTF-8 text, and prints the content framed by a header
line and markdown code fences.  Per-file read failures are caught and
reported as a one-line diagnostic, and the walk continues.

The shallow embedding models:
  * the filesystem as an inductive tree of file names and named subtrees,
    in the (implementation-defined) order `os.walk` would enumerate them;
  * the result of `open(path, "r", encoding=...).read()` as an oracle
    `ReadFS : String → String → Except String String` taking the encoding
    and the full path and returning either the decoded content or the
    message of the raised exception (permission / decode / I-O error);
  * each `print(x)` call as emitting the string `x ++ "\n"`; the prints
    for one file are contiguous, so the per-file output is grouped into an
    `Item` (a fenced block or a diagnostic line) rendered to exact text by
    `renderItem`.
-/

namespace GameBalance

/-- The last index of character `c` in the character list `s`
(Python `str.rfind`, as an index), or `none` when absent. -/
def rfindIdx (s : List Char) (c : Char) : Option Nat :=
  (List.range s.length).foldl
    (fun acc i => if s.get? i == some c then some i else acc) none

/-- Python `os.path.splitext` (posix variant, separator `/`, extension
separator `.`): split at the last dot, unless every character of the
basename before that dot is itself a dot (so dotfiles such as `".md"`
have an empty extension). -/
def splitext (p : String) : String × String :=
  let cs := p.data
  let sepIndex : Int := match rfindIdx cs '/' with | some i => (i : Int) | none => -1
  let dotIndex : Int := match rfindIdx cs '.' with | some i => (i : Int) | none => -1
  if sepIndex < dotIndex then
    let filenameStart : Nat := (sepIndex + 1).toNat
    let d : Nat := dotIndex.toNat
    if ((List.range d).drop filenameStart).any (fun j => cs.getD j '.' != '.') then
      (⟨cs.take d⟩, ⟨cs.drop d⟩)
    else (p, "")
  else (p, "")

/-- Python `os.path.join(a, b)` on posix, for the two-argument calls the
script makes. -/
def joinPath (a b : String) : String :=
  if b.data.head? = some '/' then b
  else if a = "" ∨ a.data.getLast? = some '/' then a ++ b
  else a ++ "/" ++ b

/-- The fixed extension set of the script: `valid_extensions = {".rs", ".toml", ".md"}`.
Only membership is ever used, so a list models the Python set. -/
def valid_extensions : List String := [".rs", ".toml", ".md"]

/-- The fixed character encoding passed to `open`: `encoding="utf-8"`. -/
def encoding : String := "utf-8"

/-- Python `str.lower`, character by character.  `Char.toLower` maps the
ASCII range, the only case mapping that membership in the ASCII extension
set can exercise. -/
def lowerStr (s : String) : String := ⟨s.data.map Char.toLower⟩

/-- The read oracle: `fs enc path` is the outcome of
`open(path, "r", encoding=enc).read()` — the decoded text on success, or
the message of the raised exception on failure. -/
abbrev ReadFS := String → String → Except String String

/-- The per-file output: either the header-plus-fenced-block for a file
that was read successfully, or the one-line diagnostic for a failed read. -/
inductive Item where
  | block (path content : String)
  | diag (path errMsg : String)
deriving DecidableEq, Repr

/-- The exact text the script prints for one item.  Each `print(x)` emits
`x ++ "\n"`; a block is the four prints of the `try` body, a diagnostic is
the single print of the `except` clause. -/
def renderItem : Item → String
  | .block p c => "### " ++ p ++ "\n\n" ++ "```\n" ++ c ++ "\n" ++ "```\n\n"
  | .diag p e => "Could not read " ++ p ++ ": " ++ e ++ "\n"

/-- The body of the inner `for file in files` loop for one file name:
split the extension, keep the file only when the lower-cased extension is
in `valid_extensions`, then attempt the read; a caught exception becomes a
diagnostic item. -/
def processFile (fs : ReadFS) (root name : String) : List Item :=
  let ext := (splitext name).2
  if lowerStr ext ∈ valid_extensions then
    let file_path := joinPath root name
    match fs encoding file_path with
    | .ok content => [.block file_path content]
    | .error e => [.diag file_path e]
  else []

/-- A directory tree: the file names of a directory and its named
subdirectories, both in the order `os.walk` enumerates them. -/
inductive FSTree where
  | node (files : List String) (subdirs : List (String × FSTree))

mutual
/-- `os.walk(root)` is top-down: the files of `root` first (in order), then
each subdirectory recursively (in order). -/
def walkTree (fs : ReadFS) : String → FSTree → List Item
  | root, .node files subdirs =>
      files.flatMap (processFile fs root) ++ walkSubdirs fs root subdirs

/-- The recursion of `os.walk` through the subdirectories of one directory. -/
def walkSubdirs (fs : ReadFS) : String → List (String × FSTree) → List Item
  | _, [] => []
  | root, (name, t) :: rest =>
      walkTree fs (joinPath root name) t ++ walkSubdirs fs root rest
end

/-- `read_files_recursively(base_dir=".")`: the default value of the
`base_dir` parameter is `"."`. -/
def read_files_recursively (fs : ReadFS) (t : FSTree) (base_dir : String := ".") :
    List Item :=
  walkTree fs base_dir t

/-- The full text written to standard output by one run. -/
def outputText (fs : ReadFS) (root : String) (t : FSTree) : String :=
  String.join ((walkTree fs root t).map renderItem)

/-- Whether an item is the fenced block of the file at path `p`. -/
def isBlockFor (p : String) : Item → Bool
  | .block q _ => q == p
  | .diag _ _ => false

/-- How many fenced blocks for path `p` a list of items holds. -/
def countBlocksFor (items : List Item) (p : String) : Nat :=
  items.countP (isBlockFor p)

/-- Whether a read attempt succeeded. -/
def isOkRead : Except String String → Bool
  | .ok _ => true
  | .error _ => false

/-- Whether the file `name` in directory `root` is selected by the
extension filter, resolves to path `p`, and reads successfully. -/
def matchingReadable (fs : ReadFS) (root name p : String) : Bool :=
  decide (lowerStr (splitext name).2 ∈ valid_extensions)
    && (joinPath root name == p) && isOkRead (fs encoding (joinPath root name))

mutual
/-- How many files of the tree are selected, resolve to path `p`, and read
successfully. -/
def countMatching (fs : ReadFS) : String → FSTree → String → Nat
  | root, .node files subdirs, p =>
      files.countP (fun name => matchingReadable fs root name p) +
      countMatchingSubdirs fs root subdirs p

/-- `countMatching` over the subdirectories of one directory. -/
def countMatchingSubdirs (fs : ReadFS) : String → List (String × FSTree) → String → Nat
  | _, [], _ => 0
  | root, (name, t) :: rest, p =>
      countMatching fs (joinPath root name) t p + countMatchingSubdirs fs root rest p
end

/-- The process exit status determined by whether an exception escaped to
the top level: Python exits `0` when the script body completes normally
and nonzero when an uncaught exception terminates it. -/
def exitCode {α : Type} : Except String α → Nat
  | .ok _ => 0
  | .error _ => 1

/-- The per-file loop body in the exception monad: only the `try` body
(the `open`/`read`) can raise, and the `except Exception` clause converts
any raised error into the diagnostic item, so the result is always `ok`. -/
def processFileE (fs : ReadFS) (root name : String) : Except String (List Item) :=
  let ext := (splitext name).2
  if lowerStr ext ∈ valid_extensions then
    let file_path := joinPath root name
    match (do
        let content ← fs encoding file_path
        pure [Item.block file_path content] : Except String (List Item)) with
    | .ok items => .ok items
    | .error e => .ok [.diag file_path e]
  else .ok []

/-- The inner `for file in files` loop in the exception monad: an escaped
exception would abort the remaining iterations. -/
def walkFilesE (fs : ReadFS) (root : String) : List String → Except String (List Item)
  | [] => pure []
  | name :: rest => do
      let a ← processFileE fs root name
      let b ← walkFilesE fs root rest
      pure (a ++ b)

mutual
/-- The whole run in the exception monad: an escaped exception would abort
the remaining traversal and make the process exit nonzero. -/
def walkTreeE (fs : ReadFS) : String → FSTree → Except String (List Item)
  | root, .node files subdirs => do
      let a ← walkFilesE fs root files
      let b ← walkSubdirsE fs root subdirs
      pure (a ++ b)

/-- `walkTreeE` over the subdirectories of one directory. -/
def walkSubdirsE (fs : ReadFS) : String → List (String × FSTree) → Except String (List Item)
  | _, [] => pure []
  | root, (name, t) :: rest => do
      let a ← walkTreeE fs (joinPath root name) t
      let b ← walkSubdirsE fs root rest
      pure (a ++ b)
end

/-- The scenario tree of the spec: a root directory holding `a.rs`,
`b.toml` and `c.txt`. -/
def tree7 : FSTree := .node ["a.rs", "b.toml", "c.txt"] []

/-- The scenario filesystem contents: `a.rs` holds `"fn main()\x7b\x7d"`,
`b.toml` holds `"[x]\ny=1"`, and every other path (including `c.txt`)
reads successfully with stand-in text. -/
def fs7 : ReadFS := fun _ p =>
  if p = "./a.rs" then .ok "fn main()\x7b\x7d"
  else if p = "./b.toml" then .ok "[x]\ny=1"
  else .ok "unrelated"

/-! ### Helper lemmas -/

theorem processFile_of_not_valid (fs : ReadFS) (root name : String)
    (h : lowerStr (splitext name).2 ∉ valid_extensions) :
    processFile fs root name = [] := by
  simp [processFile, h]

theorem processFile_of_error (fs : ReadFS) (root name e : String)
    (hext : lowerStr (splitext name).2 ∈ valid_extensions)
    (herr : fs encoding (joinPath root name) = .error e) :
    processFile fs root name = [.diag (joinPath root name) e] := by
  simp [processFile, hext, herr]

theorem processFile_of_ok (fs : ReadFS) (root name c : String)
    (hext : lowerStr (splitext name).2 ∈ valid_extensions)
    (hok : fs encoding (joinPath root name) = .ok c) :
    processFile fs root name = [.block (joinPath root name) c] := by
  simp [processFile, hext, hok]

theorem countBlocksFor_append (l₁ l₂ : List Item) (p : String) :
    countBlocksFor (l₁ ++ l₂) p = countBlocksFor l₁ p + countBlocksFor l₂ p := by
  simp [countBlocksFor, List.countP_append]

theorem countBlocksFor_processFile (fs : ReadFS) (root name p : String) :
    countBlocksFor (processFile fs root name) p
      = if matchingReadable fs root name p then 1 else 0 := by
  by_cases hext : lowerStr (splitext name).2 ∈ valid_extensions
  · cases hread : fs encoding (joinPath root name) with
    | ok c =>
        rw [processFile_of_ok fs root name c hext hread]
        by_cases hp : joinPath root name = p
        · subst hp
          simp [countBlocksFor, isBlockFor, matchingReadable, hext, hread, isOkRead,
            List.countP_cons]
        · simp [countBlocksFor, isBlockFor, matchingReadable, hext, hread, hp, isOkRead,
            List.countP_cons]
    | error e =>
        rw [processFile_of_error fs root name e hext hread]
        simp [countBlocksFor, isBlockFor, matchingReadable, hread, isOkRead, List.countP_cons]
  · rw [processFile_of_not_valid fs root name hext]
    simp [countBlocksFor, matchingReadable, hext]

theorem countBlocksFor_flatMap (fs : ReadFS) (root p : String) (files : List String) :
    countBlocksFor (files.flatMap (processFile fs root)) p
      = files.countP (fun name => matchingReadable fs root name p) := by
  induction files with
  | nil => rfl
  | cons a l ih =>
      rw [List.flatMap_cons, countBlocksFor_append, countBlocksFor_processFile, ih,
        List.countP_cons]
      by_cases h : matchingReadable fs root a p
      · simp [h, Nat.add_comm]
      · simp [h]

mutual
theorem countBlocksFor_walkTree (fs : ReadFS) (root : String) (t : FSTree) (p : String) :
    countBlocksFor (walkTree fs root t) p = countMatching fs root t p := by
  cases t with
  | node files subdirs =>
      rw [walkTree, countMatching, countBlocksFor_append, countBlocksFor_flatMap,
        countBlocksFor_walkSubdirs]

theorem countBlocksFor_walkSubdirs (fs : ReadFS) (root : String)
    (l : List (String × FSTree)) (p : String) :
    countBlocksFor (walkSubdirs fs root l) p = countMatchingSubdirs fs root l p := by
  cases l with
  | nil => simp [walkSubdirs, countMatchingSubdirs, countBlocksFor]
  | cons nt rest =>
      cases nt with
      | mk name t =>
          rw [walkSubdirs, countMatchingSubdirs, countBlocksFor_append,
            countBlocksFor_walkTree, countBlocksFor_walkSubdirs]
end

theorem processFileE_eq (fs : ReadFS) (root name : String) :
    processFileE fs root name = .ok (processFile fs root name) := by
  unfold processFileE processFile
  by_cases h : lowerStr (splitext name).2 ∈ valid_extensions
  · cases hr : fs encoding (joinPath root name) with
    | ok c => simp [h, hr, Bind.bind, Except.bind, Pure.pure, Except.pure]
    | error e => simp [h, hr, Bind.bind, Except.bind]
  · simp [h]

theorem walkFilesE_eq (fs : ReadFS) (root : String) (files : List String) :
    walkFilesE fs root files = .ok (files.flatMap (processFile fs root)) := by
  induction files with
  | nil => rfl
  | cons a l ih =>
      rw [walkFilesE, processFileE_eq, ih]
      simp [Bind.bind, Except.bind, List.flatMap_cons, Pure.pure, Except.pure]

mutual
theorem walkTreeE_eq (fs : ReadFS) (root : String) (t : FSTree) :
    walkTreeE fs root t = .ok (walkTree fs root t) := by
  cases t with
  | node files subdirs =>
      rw [walkTreeE, walkTree, walkFilesE_eq, walkSubdirsE_eq]
      simp [Bind.bind, Except.bind, Pure.pure, Except.pure]

theorem walkSubdirsE_eq (fs : ReadFS) (root : String) (l : List (String × FSTree)) :
    walkSubdirsE fs root l = .ok (walkSubdirs fs root l) := by
  cases l with
  | nil => rw [walkSubdirsE, walkSubdirs]; rfl
  | cons nt rest =>
      cases nt with
      | mk name t =>
          rw [walkSubdirsE, walkSubdirs, walkTreeE_eq, walkSubdirsE_eq]
          simp [Bind.bind, Except.bind, Pure.pure, Except.pure]
end

/-! ### Claims -/

/-- Claim C1: for every directory tree, every file beneath the root whose
lower-cased extension is in the fixed set and whose contents read
successfully appears exactly once in the output: for each path `p`, the
number of fenced blocks at `p` equals the number of selected readable
files resolving to `p`, and every block is rendered preceded by a header
containing its path. -/
theorem claim_C1_matching_files_once (fs : ReadFS) (root p : String) (t : FSTree) :
    countBlocksFor (walkTree fs root t) p = countMatching fs root t p ∧
    ∀ c, renderItem (Item.block p c)
      = "### " ++ p ++ "\n\n" ++ "```\n" ++ c ++ "\n" ++ "```\n\n" :=
  ⟨countBlocksFor_walkTree fs root t p, fun _ => rfl⟩

/-- Claim C2: a selected file whose read raises an error contributes
exactly one diagnostic line naming its path and the error, no header and
no fenced block, and the remaining files and subdirectories are still
processed. -/
theorem claim_C2_read_failure_diagnostic (fs : ReadFS) (root name e : String)
    (files₁ files₂ : List String) (subdirs : List (String × FSTree))
    (hext : lowerStr (splitext name).2 ∈ valid_extensions)
    (herr : fs encoding (joinPath root name) = .error e) :
    processFile fs root name = [.diag (joinPath root name) e] ∧
    walkTree fs root (.node (files₁ ++ name :: files₂) subdirs)
      = files₁.flatMap (processFile fs root)
          ++ Item.diag (joinPath root name) e
            :: (files₂.flatMap (processFile fs root) ++ walkSubdirs fs root subdirs) ∧
    renderItem (.diag (joinPath root name) e)
      = "Could not read " ++ joinPath root name ++ ": " ++ e ++ "\n" := by
  refine ⟨processFile_of_error fs root name e hext herr, ?_, rfl⟩
  rw [walkTree, List.flatMap_append, List.flatMap_cons,
    processFile_of_error fs root name e hext herr]
  simp

/-- Witness for C2 at a concrete failing read. -/
theorem claim_C2_read_failure_diagnostic_witness :
    (lowerStr (splitext "bad.md").2 ∈ valid_extensions) ∧
    processFile (fun _ p => if p = "./bad.md" then Except.error "boom" else Except.ok "ok")
      "." "bad.md" = [.diag (joinPath "." "bad.md") "boom"] :=
  ⟨by decide,
   (claim_C2_read_failure_diagnostic
      (fun _ p => if p = "./bad.md" then Except.error "boom" else Except.ok "ok")
      "." "bad.md" "boom" [] [] [] (by decide) (by rfl)).1⟩

/-- Claim C3: a file whose lower-cased extension is not in the fixed set
contributes nothing: no items at all, and deleting it from its directory
leaves the whole output unchanged. -/
theorem claim_C3_nonmatching_silent (fs : ReadFS) (root name : String)
    (h : lowerStr (splitext name).2 ∉ valid_extensions) :
    processFile fs root name = [] ∧
    ∀ (files₁ files₂ : List String) (subdirs : List (String × FSTree)),
      walkTree fs root (.node (files₁ ++ name :: files₂) subdirs)
        = walkTree fs root (.node (files₁ ++ files₂) subdirs) := by
  refine ⟨processFile_of_not_valid fs root name h, ?_⟩
  intro files₁ files₂ subdirs
  rw [walkTree, walkTree, List.flatMap_append, List.flatMap_append, List.flatMap_cons,
    processFile_of_not_valid fs root name h]
  simp

/-- Witness for C3 at a concrete non-matching file. -/
theorem claim_C3_nonmatching_silent_witness :
    (lowerStr (splitext "c.txt").2 ∉ valid_extensions) ∧
    processFile (fun _ _ => Except.ok "data") "." "c.txt" = [] :=
  ⟨by decide,
   (claim_C3_nonmatching_silent (fun _ _ => Except.ok "data") "." "c.txt" (by decide)).1⟩

/-- Claim C4: a selected file read successfully contributes exactly one
block, and its rendered text is exactly the header line `### <path>`, a
blank line, an opening fence line, the raw content (its last line closed
by the newline `print` appends), a closing fence line, and a blank-line
separator. -/
theorem claim_C4_block_format (fs : ReadFS) (root name content : String)
    (hext : lowerStr (splitext name).2 ∈ valid_extensions)
    (hok : fs encoding (joinPath root name) = .ok content) :
    processFile fs root name = [.block (joinPath root name) content] ∧
    renderItem (.block (joinPath root name) content)
      = "### " ++ joinPath root name ++ "\n\n" ++ "```\n" ++ content ++ "\n" ++ "```\n\n" :=
  ⟨processFile_of_ok fs root name content hext hok, rfl⟩

/-- Witness for C4 at a concrete successful read. -/
theorem claim_C4_block_format_witness :
    (lowerStr (splitext "a.rs").2 ∈ valid_extensions) ∧
    processFile (fun _ _ => Except.ok "x") "." "a.rs"
      = [.block (joinPath "." "a.rs") "x"] :=
  ⟨by decide,
   (claim_C4_block_format (fun _ _ => Except.ok "x") "." "a.rs" "x" (by decide) rfl).1⟩

/-- Claim C5: the output is a deterministic function of the tree, the
traversal order and the file contents: two runs over the same tree whose
reads agree everywhere produce identical output text. -/
theorem claim_C5_deterministic (fs₁ fs₂ : ReadFS) (root : String) (t : FSTree)
    (h : ∀ enc p, fs₁ enc p = fs₂ enc p) :
    outputText fs₁ root t = outputText fs₂ root t := by
  have hfs : fs₁ = fs₂ := funext fun enc => funext fun p => h enc p
  rw [hfs]

/-- Witness for C5 at a concrete tree and two extensionally equal reads. -/
theorem claim_C5_deterministic_witness :
    outputText (fun _ _ => Except.ok "a") "." (.node ["m.md"] [])
      = outputText (fun _ _ => Except.ok ("a" ++ "")) "." (.node ["m.md"] []) :=
  claim_C5_deterministic (fun _ _ => Except.ok "a") (fun _ _ => Except.ok ("a" ++ ""))
    "." (.node ["m.md"] []) (fun _ _ => rfl)

/-- Claim C6: the run always completes normally — in the exception monad
the whole walk returns `ok` whatever the per-file read outcomes are, so
the process exit status is `0`. -/
theorem claim_C6_always_exits_zero (fs : ReadFS) (root : String) (t : FSTree) :
    walkTreeE fs root t = .ok (walkTree fs root t) ∧
    exitCode (walkTreeE fs root t) = 0 := by
  refine ⟨walkTreeE_eq fs root t, ?_⟩
  rw [walkTreeE_eq]
  rfl

/-- Claim C7: on the scenario tree (`a.rs`, `b.toml`, `c.txt`) the output
is exactly the block for `a.rs` with its content and the block for
`b.toml` with its content, and no block for `c.txt` ever appears. -/
theorem claim_C7_scenario :
    walkTree fs7 "." tree7
      = [.block "./a.rs" "fn main()\x7b\x7d", .block "./b.toml" "[x]\ny=1"] ∧
    ∀ c, Item.block "./c.txt" c ∉ walkTree fs7 "." tree7 := by
  have h : walkTree fs7 "." tree7
      = [.block "./a.rs" "fn main()\x7b\x7d", .block "./b.toml" "[x]\ny=1"] := by
    rw [tree7, walkTree, walkSubdirs]
    rfl
  refine ⟨h, ?_⟩
  intro c
  rw [h]
  simp [Item.block.injEq]

/-- Claim C8: every read uses the single fixed encoding `"utf-8"`, and a
file whose bytes do not decode under it is treated as a read failure: one
diagnostic, and the walk continues with the remaining files. -/
theorem claim_C8_utf8_and_decode_failure (fs : ReadFS) (root name e : String)
    (files₂ : List String) (subdirs : List (String × FSTree))
    (hext : lowerStr (splitext name).2 ∈ valid_extensions)
    (hdec : fs "utf-8" (joinPath root name) = .error e) :
    encoding = "utf-8" ∧
    processFile fs root name = [.diag (joinPath root name) e] ∧
    walkTree fs root (.node (name :: files₂) subdirs)
      = Item.diag (joinPath root name) e :: walkTree fs root (.node files₂ subdirs) := by
  have herr : fs encoding (joinPath root name) = .error e := hdec
  refine ⟨rfl, processFile_of_error fs root name e hext herr, ?_⟩
  rw [walkTree, walkTree, List.flatMap_cons, processFile_of_error fs root name e hext herr]
  simp

/-- Witness for C8 at a concrete decode failure. -/
theorem claim_C8_utf8_and_decode_failure_witness :
    encoding = "utf-8" ∧
    processFile
        (fun _ p => if p = "./x.md" then Except.error "invalid start byte" else Except.ok "ok")
        "." "x.md"
      = [.diag (joinPath "." "x.md") "invalid start byte"] :=
  ⟨rfl,
   (claim_C8_utf8_and_decode_failure
      (fun _ p => if p = "./x.md" then Except.error "invalid start byte" else Except.ok "ok")
      "." "x.md" "invalid start byte" [] [] (by decide) (by rfl)).2.1⟩

/-- Claim C9: the `base_dir` parameter defaults to the current working
directory `"."`: a call without the argument walks from `"."`. -/
theorem claim_C9_default_root (fs : ReadFS) (t : FSTree) :
    read_files_recursively fs t = walkTree fs "." t ∧
    read_files_recursively fs t = read_files_recursively fs t "." :=
  ⟨rfl, rfl⟩

/-- Claim C10: a dotfile whose whole name is one of the configured
suffixes (`".md"`, `".rs"`, `".toml"`) gets an empty extension from
`splitext` and is excluded, even though its name ends with a suffix of
the extension set. -/
theorem claim_C10_dotfiles_excluded (fs : ReadFS) (root : String) :
    splitext ".md" = (".md", "") ∧ splitext ".rs" = (".rs", "") ∧
    splitext ".toml" = (".toml", "") ∧
    List.isSuffixOf (".md").data (".md").data = true ∧ ".md" ∈ valid_extensions ∧
    processFile fs root ".md" = [] ∧ processFile fs root ".rs" = [] ∧
    processFile fs root ".toml" = [] := by
  refine ⟨by decide, by decide, by decide, by decide, by decide, ?_, ?_, ?_⟩
  · exact processFile_of_not_valid fs root ".md" (by decide)
  · exact processFile_of_not_valid fs root ".rs" (by decide)
  · exact processFile_of_not_valid fs root ".toml" (by decide)

end GameBalance
